import Mathlib

/-!
Verification of the font-kit core against its specification.

The definitions below are a shallow embedding of the Rust sources
`src/source.rs`, `src/loaders/core_text.rs` and `src/font.rs`:

* byte buffers are `List Nat` (one `Nat` per byte);
* Rust functions returning `Result` become functions into `RustResult`
  (or `SelResult` for the selection API), which also records the
  possibility of a panic (`.panicked`) so that `unwrap`, out-of-bounds
  slicing and out-of-bounds indexing are modelled faithfully;
* functions taking `&mut [u8]` return the final buffer explicitly;
* calls into the platform font service (Core Graphics / Core Text) are
  uninterpreted parameters of the embedding.
-/

namespace FontKit

/-- Loading errors, following the repository's error taxonomy (the
variants actually mentioned by the embedded sources: `UnknownFormat`,
`NoSuchFontInCollection`, `Parse`, plus the wrapped I/O error produced
when a byteorder read hits the end of the buffer). -/
inductive FontLoadingError where
  | UnknownFormat
  | NoSuchFontInCollection
  | Parse
  | IoError
deriving DecidableEq

/-- Result of a Rust function returning `Result<α, FontLoadingError>`,
with an extra constructor recording an irrecoverable abort. -/
inductive RustResult (α : Type) where
  | ok (val : α)
  | err (e : FontLoadingError)
  | panicked
deriving DecidableEq

/-- The `ttcf` magic tag (`TTC_TAG` in `loaders/core_text.rs`), as bytes. -/
def TTC_TAG : List Nat := [116, 116, 99, 102]

/-- Rust slice expression `&data[i..]`: the suffix when `i ≤ data.len()`,
`none` (a panic) otherwise. -/
def slice_from (data : List Nat) (i : Nat) : Option (List Nat) :=
  if i ≤ data.length then some (data.drop i) else none

/-- `ReadBytesExt::read_u16::<BigEndian>` on a byte slice: the big-endian
16-bit value of the first two bytes, or `none` (an I/O error) when the
slice is shorter than two bytes. -/
def read_u16_be (data : List Nat) : Option Nat :=
  match data with
  | b0 :: b1 :: _ => some (b0 * 256 + b1)
  | _ => none

/-- `ReadBytesExt::read_u32::<BigEndian>` on a byte slice: the big-endian
32-bit value of the first four bytes, or `none` (an I/O error) when the
slice is shorter than four bytes. -/
def read_u32_be (data : List Nat) : Option Nat :=
  match data with
  | b0 :: b1 :: b2 :: b3 :: _ => some (((b0 * 256 + b1) * 256 + b2) * 256 + b3)
  | _ => none

/-- `font_is_collection` from `loaders/core_text.rs`:
`header.len() >= 4 && header[0..4] == TTC_TAG`. -/
def font_is_collection (header : List Nat) : Bool :=
  decide (4 ≤ header.length) && decide (header.take 4 = TTC_TAG)

/-- `read_number_of_fonts_from_otc_header` from `loaders/core_text.rs`:
rejects non-collections with `UnknownFormat`, then reads the big-endian
32-bit face count at offset 8.  The slice `&header[8..]` panics when the
buffer is shorter than 8 bytes; a buffer of 8–11 bytes makes the read
itself fail, which `try!` surfaces as a wrapped I/O error. -/
def read_number_of_fonts_from_otc_header (header : List Nat) : RustResult Nat :=
  if !font_is_collection header then .err .UnknownFormat
  else
    match slice_from header 8 with
    | none => .panicked
    | some rest =>
      match read_u32_be rest with
      | none => .err .IoError
      | some n => .ok n

/-- The copy loop of `unpack_otc_font`:
`for offset in 0..count { data[offset] = data[src + offset] }`, started at
loop counter `i` with `count` iterations remaining.  Each iteration reads
`data[src + i]` and writes `data[i]`, panicking if either index is out of
bounds. -/
def copy_forward (src : Nat) : Nat → Nat → List Nat → RustResult Unit × List Nat
  | _, 0, data => (.ok (), data)
  | i, k + 1, data =>
    if h : src + i < data.length ∧ i < data.length then
      copy_forward src (i + 1) k (data.set i (data.get ⟨src + i, h.1⟩))
    else (.panicked, data)

/-- Modelled from the spec: the "small set of known magic values" that a
face's table-directory version tag is validated against
(`utils::SFNT_VERSIONS`, whose defining module is not part of the
embedded sources).  The standard sfnt version tags: `0x00010000`,
`OTTO`, and `true`. -/
def SFNT_VERSIONS : List (List Nat) :=
  [[0, 1, 0, 0], [79, 84, 84, 79], [116, 114, 117, 101]]

/-- `unpack_otc_font` from `loaders/core_text.rs`.  Returns the Rust
result together with the final state of the `&mut [u8]` buffer.  Note
that the validation of the face's sfnt version tag in the source is a
`debug_assert!`, which is compiled out of release builds and so does not
contribute to the returned result; the embedding models the release
semantics. -/
def unpack_otc_font (data : List Nat) (font_index : Nat) :
    RustResult Unit × List Nat :=
  match read_number_of_fonts_from_otc_header data with
  | .panicked => (.panicked, data)
  | .err e => (.err e, data)
  | .ok n =>
    if font_index ≥ n then (.err .NoSuchFontInCollection, data)
    else
      match slice_from data (12 + 4 * font_index) with
      | none => (.panicked, data)
      | some s1 =>
        match read_u32_be s1 with
        | none => (.err .IoError, data)
        | some offset_table_pos =>
          match slice_from data (offset_table_pos + 4) with
          | none => (.panicked, data)
          | some s2 =>
            match read_u16_be s2 with
            | none => (.err .IoError, data)
            | some num_tables =>
              copy_forward offset_table_pos 0 (12 + num_tables * 16) data

/-- The table-directory offset recorded for face `k` in a collection
header: the big-endian 32-bit value at byte offset `12 + 4·k`. -/
def face_offset (data : List Nat) (k : Nat) : Option Nat :=
  (slice_from data (12 + 4 * k)).bind read_u32_be

/-- The table count recorded in the table directory that starts at byte
offset `otp`: the big-endian 16-bit value at byte offset `otp + 4`. -/
def table_count_at (data : List Nat) (otp : Nat) : Option Nat :=
  (slice_from data (otp + 4)).bind read_u16_be

/-- `Type` from `font.rs` (renamed: `Type` is a Lean keyword). -/
inductive FontType where
  | Single
  | Collection (face_count : Nat)
deriving DecidableEq

/-- `Font::analyze_bytes` from `loaders/core_text.rs`, parameterised by
the external Core Graphics parser (`CGFont::from_data_provider`), which
is modelled as an uninterpreted predicate on the buffer. -/
def Font.analyze_bytes (cg_parse_ok : List Nat → Bool) (font_data : List Nat) :
    RustResult FontType :=
  match read_number_of_fonts_from_otc_header font_data with
  | .ok font_count => .ok (.Collection font_count)
  | .panicked => .panicked
  | .err _ =>
    if cg_parse_ok font_data then .ok .Single else .err .Parse

/-- A concrete well-formed collection buffer with two faces, used by the
witnesses: `ttcf` magic, face count 2, face 0's table directory at
offset 20 with one table record, face 1's at offset 48 with none. -/
def goodBuf : List Nat :=
  [116, 116, 99, 102,
   0, 1, 0, 0,
   0, 0, 0, 2,
   0, 0, 0, 20,
   0, 0, 0, 48,
   0, 1, 0, 0,
   0, 1,
   0, 0, 0, 0, 0, 0,
   99, 109, 97, 112,
   0, 0, 0, 0,
   0, 0, 0, 60,
   0, 0, 0, 0,
   0, 1, 0, 0,
   0, 0,
   0, 0, 0, 0, 0, 0]

/-- A concrete collection buffer whose single face's table directory (at
offset 16) carries the version tag `[9, 9, 9, 9]`, which is not an sfnt
version tag. -/
def badVersionBuf : List Nat :=
  [116, 116, 99, 102,
   0, 1, 0, 0,
   0, 0, 0, 1,
   0, 0, 0, 16,
   9, 9, 9, 9,
   0, 0,
   0, 0, 0, 0, 0, 0]

/-- Claim C2: for every buffer recognized as a collection (with face
count `n`), `unpack_otc_font` on a face index at or past `n` fails with
`NoSuchFontInCollection` and returns the buffer byte-for-byte unchanged:
the index is validated before any byte of the buffer is written. -/
theorem C2_unpack_out_of_range (data : List Nat) (n k : Nat)
    (hn : read_number_of_fonts_from_otc_header data = .ok n) (hk : n ≤ k) :
    unpack_otc_font data k = (.err .NoSuchFontInCollection, data) := by
  unfold unpack_otc_font
  rw [hn]
  exact if_pos hk

/-- Witness for C2 on the concrete two-face collection `goodBuf`. -/
theorem C2_unpack_out_of_range_witness :
    read_number_of_fonts_from_otc_header goodBuf = .ok 2 ∧
    unpack_otc_font goodBuf 2 = (.err .NoSuchFontInCollection, goodBuf) :=
  ⟨by decide, C2_unpack_out_of_range goodBuf 2 2 (by decide) (by decide)⟩

/-- Counterexample for claim C5: the claim asserts that `unpack_otc_font`
returns an error whenever the selected face's table-directory version tag
is not a known magic value, but on `badVersionBuf` — whose face 0 version
tag `[9, 9, 9, 9]` is not in `SFNT_VERSIONS` — the call succeeds: the
version check in the source is only a `debug_assert!`. -/
theorem C5_counterexample :
    List.take 4 (List.drop 16 badVersionBuf) ∉ SFNT_VERSIONS ∧
    (unpack_otc_font badVersionBuf 0).1 = RustResult.ok () := by
  constructor
  · decide
  · decide

/-- A successful big-endian 32-bit read needs at least four bytes. -/
theorem read_u32_be_length {xs : List Nat} {n : Nat}
    (h : read_u32_be xs = some n) : 4 ≤ xs.length := by
  rcases xs with _ | ⟨a, _ | ⟨b, _ | ⟨c, _ | ⟨d, t⟩⟩⟩⟩ <;>
    simp [read_u32_be] at h ⊢

/-- On a buffer with the `ttcf` tag whose face-count field is readable,
`read_number_of_fonts_from_otc_header` returns that field. -/
theorem read_number_ok (data : List Nat) (n : Nat)
    (htag : data.take 4 = TTC_TAG) (hread : read_u32_be (data.drop 8) = some n) :
    read_number_of_fonts_from_otc_header data = .ok n := by
  have hlen4 : 4 ≤ (data.drop 8).length := read_u32_be_length hread
  have hlen : 12 ≤ data.length := by
    have := data.length_drop 8
    omega
  have hcol : font_is_collection data = true := by
    simp [font_is_collection, htag]
    omega
  have hs : slice_from data 8 = some (data.drop 8) := by
    simp [slice_from]
    omega
  simp [read_number_of_fonts_from_otc_header, hcol, hs, hread]

/-- Without the `ttcf` tag, the header reader rejects the buffer. -/
theorem read_number_not_collection (data : List Nat)
    (htag : data.take 4 ≠ TTC_TAG) :
    read_number_of_fonts_from_otc_header data = .err .UnknownFormat := by
  have hcol : font_is_collection data = false := by
    simp [font_is_collection, htag]
  simp [read_number_of_fonts_from_otc_header, hcol]

/-- Claim C5 (amended): `unpack_otc_font` fails with the
malformed-container error `UnknownFormat` whenever the 4-byte tag at
offset 0 is not the collection tag; the face's table-directory version
tag, however, is checked only by a debug assertion, so in release
builds unpacking proceeds — and can succeed — even when that tag is not
one of the known magic values. -/
theorem C5_magic_tag_only (data : List Nat) (k : Nat)
    (h : data.take 4 ≠ TTC_TAG) :
    unpack_otc_font data k = (.err .UnknownFormat, data) := by
  unfold unpack_otc_font
  rw [read_number_not_collection data h]

/-- Witness for C5 on a concrete buffer with a wrong magic tag. -/
theorem C5_magic_tag_only_witness :
    unpack_otc_font [9, 9, 9, 9, 9] 3 = (.err .UnknownFormat, [9, 9, 9, 9, 9]) :=
  C5_magic_tag_only [9, 9, 9, 9, 9] 3 (by decide)

/-- Claim C6: sniffing a buffer whose first four bytes are the `ttcf`
collection tag and that is long enough for the header yields
`Collection n`, where `n` is the big-endian 32-bit value at byte
offset 8 (the successful `read_u32_be` at offset 8 expresses both the
length requirement and the value); a buffer not starting with the tag is
never reported as a collection, for every behaviour of the external
Core Graphics parser. -/
theorem C6_analyze_bytes_collection :
    (∀ (cg : List Nat → Bool) (data : List Nat) (n : Nat),
      data.take 4 = TTC_TAG → read_u32_be (data.drop 8) = some n →
      Font.analyze_bytes cg data = .ok (.Collection n)) ∧
    (∀ (cg : List Nat → Bool) (data : List Nat) (n : Nat),
      data.take 4 ≠ TTC_TAG →
      Font.analyze_bytes cg data ≠ .ok (.Collection n)) := by
  constructor
  · intro cg data n htag hread
    simp [Font.analyze_bytes, read_number_ok data n htag hread]
  · intro cg data n htag
    simp only [Font.analyze_bytes, read_number_not_collection data htag]
    by_cases hcg : cg data = true <;> simp [hcg]

/-- Correctness of the in-place forward copy loop.  Starting from a
buffer `cur` that agrees with the pristine buffer `orig` from position
`i` on, running `k` more iterations never panics when the source region
fits, and afterwards positions `i ≤ j < i + k` hold `orig`'s bytes from
`src + j` — the bytes of the pre-loop buffer, even when the source and
destination regions overlap, because the copy proceeds in ascending
index order — while all other positions are untouched. -/
theorem copy_forward_ok (src : Nat) :
    ∀ (k i : Nat) (cur orig : List Nat),
    cur.length = orig.length →
    src + i + k ≤ orig.length →
    (∀ j, i ≤ j → cur[j]? = orig[j]?) →
    ∃ d, copy_forward src i k cur = (.ok (), d) ∧
      d.length = orig.length ∧
      (∀ j, j < i → d[j]? = cur[j]?) ∧
      (∀ j, i ≤ j → j < i + k → d[j]? = orig[src + j]?) ∧
      (∀ j, i + k ≤ j → d[j]? = orig[j]?) := by
  intro k
  induction k with
  | zero =>
    intro i cur orig hlen hbound hinv
    exact ⟨cur, rfl, hlen, fun j _ => rfl,
      fun j hj1 hj2 => absurd hj2 (by omega),
      fun j hj => hinv j (by omega)⟩
  | succ k ih =>
    intro i cur orig hlen hbound hinv
    have h1 : src + i < cur.length := by omega
    have h2 : i < cur.length := by omega
    rw [copy_forward, dif_pos ⟨h1, h2⟩]
    have hvorig : orig[src + i]? = some (cur.get ⟨src + i, h1⟩) := by
      rw [← hinv (src + i) (by omega)]
      simp [List.getElem?_eq_getElem h1]
    have hcur' : ∀ j, i + 1 ≤ j →
        (cur.set i (cur.get ⟨src + i, h1⟩))[j]? = orig[j]? := by
      intro j hj
      rw [List.getElem?_set_ne (by omega)]
      exact hinv j (by omega)
    obtain ⟨d, hrun, hdlen, hA, hB, hC⟩ :=
      ih (i + 1) (cur.set i (cur.get ⟨src + i, h1⟩)) orig
        (by simp [hlen]) (by omega) hcur'
    refine ⟨d, hrun, hdlen, ?_, ?_, ?_⟩
    · intro j hj
      rw [hA j (by omega), List.getElem?_set_ne (by omega)]
    · intro j hj1 hj2
      rcases Nat.eq_or_lt_of_le hj1 with he | hl
      · subst he
        rw [hA i (by omega), List.getElem?_set_self h2, hvorig]
      · exact hB j hl (by omega)
    · intro j hj
      exact hC j (by omega)

/-- Claim C3: on a well-formed collection (readable face count `n`,
face index `k < n`, readable table-directory offset `otp` and table
count `t`, and the whole `12 + 16·t`-byte directory region inside the
buffer), `unpack_otc_font` succeeds and the first `12 + 16·t` bytes of
the resulting buffer equal, byte for byte, the region that started at
offset `otp` in the pre-call buffer.  The equality holds against the
pre-call buffer even when the region overlaps the destination, which is
exactly what the ascending-order copy guarantees. -/
theorem C3_unpack_copies_directory (data : List Nat) (k n otp t : Nat)
    (hn : read_number_of_fonts_from_otc_header data = .ok n)
    (hk : k < n)
    (hotp : face_offset data k = some otp)
    (ht : table_count_at data otp = some t)
    (hfit : otp + (12 + 16 * t) ≤ data.length) :
    ∃ d, unpack_otc_font data k = (.ok (), d) ∧
      d.length = data.length ∧
      ∀ j, j < 12 + 16 * t → d[j]? = data[otp + j]? := by
  obtain ⟨s1, hs1, hr1⟩ := Option.bind_eq_some.mp hotp
  obtain ⟨s2, hs2, hr2⟩ := Option.bind_eq_some.mp ht
  obtain ⟨d, hrun, hdlen, _, hB, _⟩ :=
    copy_forward_ok otp (12 + t * 16) 0 data data rfl (by omega)
      (fun j _ => rfl)
  refine ⟨d, ?_, hdlen, ?_⟩
  · unfold unpack_otc_font
    simp only [hn, ge_iff_le, hs1, hr1, hs2, hr2]
    rw [if_neg (show ¬ n ≤ k by omega)]
    exact hrun
  · intro j hj
    exact hB j (by omega) (by omega)

/-- Claim C4: under the same well-formedness hypotheses as C3, a
successful `unpack_otc_font` mutates only the header region: every byte
at an index at or past `12 + 16·t` is identical before and after the
call, so the table records and the table data they point to are
unmoved. -/
theorem C4_unpack_frame (data : List Nat) (k n otp t : Nat)
    (hn : read_number_of_fonts_from_otc_header data = .ok n)
    (hk : k < n)
    (hotp : face_offset data k = some otp)
    (ht : table_count_at data otp = some t)
    (hfit : otp + (12 + 16 * t) ≤ data.length) :
    ∃ d, unpack_otc_font data k = (.ok (), d) ∧
      ∀ j, 12 + 16 * t ≤ j → d[j]? = data[j]? := by
  obtain ⟨s1, hs1, hr1⟩ := Option.bind_eq_some.mp hotp
  obtain ⟨s2, hs2, hr2⟩ := Option.bind_eq_some.mp ht
  obtain ⟨d, hrun, _, _, _, hC⟩ :=
    copy_forward_ok otp (12 + t * 16) 0 data data rfl (by omega)
      (fun j _ => rfl)
  refine ⟨d, ?_, ?_⟩
  · unfold unpack_otc_font
    simp only [hn, ge_iff_le, hs1, hr1, hs2, hr2]
    rw [if_neg (show ¬ n ≤ k by omega)]
    exact hrun
  · intro j hj
    exact hC j (by omega)

/-- Witness for C3 on `goodBuf`, face 0: the directory at offset 20 with
one table record is copied to the start. -/
theorem C3_unpack_copies_directory_witness :
    ∃ d, unpack_otc_font goodBuf 0 = (.ok (), d) ∧
      d.length = goodBuf.length ∧
      ∀ j, j < 12 + 16 * 1 → d[j]? = goodBuf[20 + j]? :=
  C3_unpack_copies_directory goodBuf 0 2 20 1 (by decide) (by decide)
    (by decide) (by decide) (by decide)

/-- Witness for C4 on `goodBuf`, face 0: bytes from offset 28 on are
untouched. -/
theorem C4_unpack_frame_witness :
    ∃ d, unpack_otc_font goodBuf 0 = (.ok (), d) ∧
      ∀ j, 12 + 16 * 1 ≤ j → d[j]? = goodBuf[j]? :=
  C4_unpack_frame goodBuf 0 2 20 1 (by decide) (by decide)
    (by decide) (by decide) (by decide)

/-- Witness for C6: the concrete collection `goodBuf` sniffs as a
two-face collection, and a buffer of zeros is never a collection. -/
theorem C6_analyze_bytes_collection_witness :
    Font.analyze_bytes (fun _ => true) goodBuf = .ok (.Collection 2) ∧
    Font.analyze_bytes (fun _ => true) [0, 0, 0, 0] ≠ .ok (.Collection 7) :=
  ⟨C6_analyze_bytes_collection.1 (fun _ => true) goodBuf 2 (by decide) (by decide),
   C6_analyze_bytes_collection.2 (fun _ => true) [0, 0, 0, 0] 7 (by decide)⟩

/-- Modelled from the spec: `piecewise_linear_lookup` over an ordered
table of `(native_x, css_y)` pairs (its defining module,
`sources/core_text.rs`, is not among the embedded sources).  Find the
bracketing pair `(x0,y0),(x1,y1)` with `x0 ≤ x ≤ x1` and return
`y0 + (x - x0)/(x1 - x0) · (y1 - y0)`; below the first or above the
last entry the result clamps to the nearest endpoint's `y`.  Exact
arithmetic over `ℚ` stands in for the f32 of the source. -/
def piecewise_linear_lookup (x : ℚ) : List (ℚ × ℚ) → ℚ
  | [] => 0
  | [(_, y0)] => y0
  | (x0, y0) :: (x1, y1) :: rest =>
    if x ≤ x0 then y0
    else if x ≤ x1 then y0 + (x - x0) / (x1 - x0) * (y1 - y0)
    else piecewise_linear_lookup x ((x1, y1) :: rest)

/-- The bracketing search of `piecewise_linear_find_index`, carrying the
index `i` of the first remaining entry. -/
def find_index_from (x : ℚ) : Nat → List ℚ → ℚ
  | _, [] => 0
  | i, [_] => (i : ℚ)
  | i, x0 :: x1 :: rest =>
    if x ≤ x0 then (i : ℚ)
    else if x ≤ x1 then (i : ℚ) + (x - x0) / (x1 - x0)
    else find_index_from x (i + 1) (x1 :: rest)

/-- Modelled from the spec: the companion `piecewise_linear_find_index`
performs the same bracketing search as `piecewise_linear_lookup` but
returns the fractional index into the table, clamped to the first or
last index outside the table range. -/
def piecewise_linear_find_index (x : ℚ) (xs : List ℚ) : ℚ :=
  find_index_from x 0 xs

/-- Modelled from the spec: the monotone native-weight table
(`sources::core_text::FONT_WEIGHT_MAPPING`, not among the embedded
sources), whose entries are pinned by the documented exact mappings
`-0.7 ↦ 100`, `0.0 ↦ 400`, `0.4 ↦ 700`, `0.8 ↦ 900` and the blend
`0.1 ↦ 450` (so index 4 holds `0.2`). -/
def FONT_WEIGHT_MAPPING : List ℚ :=
  [-7/10, -1/2, -23/100, 0, 1/5, 3/10, 2/5, 3/5, 4/5]

/-- Modelled from the spec: the stretch table
(`descriptor::FONT_STRETCH_MAPPING`, not among the embedded sources) as
`(index, css_stretch)` pairs: the nine CSS stretch keyword values from
ultra-condensed `0.5` to ultra-expanded `2.0`, indexed `0..8`, pinned
by the documented exact mappings `0 ↦ 1.0`, `-1 ↦ 0.5`, `1 ↦ 2.0` and
the blend `0.85 ↦ 1.7`. -/
def FONT_STRETCH_MAPPING : List (ℚ × ℚ) :=
  [(0, 1/2), (1, 5/8), (2, 3/4), (3, 7/8), (4, 1),
   (5, 9/8), (6, 5/4), (7, 3/2), (8, 2)]

/-- `core_text_to_css_font_weight` from `loaders/core_text.rs`: the
fractional index of the native weight in the weight table, scaled by
100 and offset by 100 (the `Weight` newtype is elided). -/
def core_text_to_css_font_weight (core_text_weight : ℚ) : ℚ :=
  piecewise_linear_find_index core_text_weight FONT_WEIGHT_MAPPING * 100 + 100

/-- `core_text_width_to_css_stretchiness` from `loaders/core_text.rs`:
the native width shifted into table-index space, interpolated in the
stretch table (the `Stretch` newtype is elided). -/
def core_text_width_to_css_stretchiness (core_text_width : ℚ) : ℚ :=
  piecewise_linear_lookup ((core_text_width + 1) * 4) FONT_STRETCH_MAPPING

/-- Claim C8: the weight conversion is the fractional table index scaled
by 100 plus 100; every exact weight-table entry maps to exactly its CSS
value (all nine entries, in particular `-0.7 ↦ 100`, `0.0 ↦ 400`,
`0.4 ↦ 700`, `0.8 ↦ 900`), a value strictly between two entries maps to
the linear blend (`0.1 ↦ 450`), and the stretch conversion maps native
width `0.0 ↦ 1.0`, `-1.0 ↦ 0.5` and `1.0 ↦ 2.0`. -/
theorem C8_weight_and_stretch_conversion :
    (∀ w : ℚ, core_text_to_css_font_weight w =
      piecewise_linear_find_index w FONT_WEIGHT_MAPPING * 100 + 100) ∧
    core_text_to_css_font_weight (-7/10) = 100 ∧
    core_text_to_css_font_weight (-1/2) = 200 ∧
    core_text_to_css_font_weight (-23/100) = 300 ∧
    core_text_to_css_font_weight 0 = 400 ∧
    core_text_to_css_font_weight (1/5) = 500 ∧
    core_text_to_css_font_weight (3/10) = 600 ∧
    core_text_to_css_font_weight (2/5) = 700 ∧
    core_text_to_css_font_weight (3/5) = 800 ∧
    core_text_to_css_font_weight (4/5) = 900 ∧
    core_text_to_css_font_weight (1/10) = 450 ∧
    core_text_width_to_css_stretchiness 0 = 1 ∧
    core_text_width_to_css_stretchiness (-1) = 1/2 ∧
    core_text_width_to_css_stretchiness 1 = 2 := by
  refine ⟨fun _ => rfl, ?_⟩
  repeat' constructor
  all_goals
    norm_num [core_text_to_css_font_weight, core_text_width_to_css_stretchiness,
      piecewise_linear_find_index, find_index_from, piecewise_linear_lookup,
      FONT_WEIGHT_MAPPING, FONT_STRETCH_MAPPING]

/-- The values written into `dest` by the native
`CTFontGetGlyphsForCharacters` call, together with its boolean result
(which reports whether every character had a glyph). -/
structure NativeGlyphLookup where
  dest0 : Nat
  dest1 : Nat
  success : Bool

/-- `Font::glyph_for_char` from `loaders/core_text.rs`, parameterised by
the native call: the source returns `Some(dest[0] as u32)`
unconditionally, never inspecting the call's boolean result. -/
def Font.glyph_for_char (native : Char → NativeGlyphLookup)
    (character : Char) : Option Nat :=
  some (native character).dest0

/-- A face with no glyph for any character: the native call reports
failure and writes glyph id 0 (`.notdef`) into `dest`. -/
def missingGlyphFace : Char → NativeGlyphLookup := fun _ => ⟨0, 0, false⟩

/-- Claim C9 (code bug): `glyph_for_char` can never return `None`.  On a
face with no glyph for `'A'` it returns `Some 0` (the `.notdef` glyph
id), and for every face and character the result is `Some`, because the
source ignores the native call's failure flag. -/
theorem C9_glyph_for_char_never_none :
    Font.glyph_for_char missingGlyphFace 'A' = some 0 ∧
    ∀ (native : Char → NativeGlyphLookup) (c : Char),
      (Font.glyph_for_char native c).isSome = true :=
  ⟨rfl, fun _ _ => rfl⟩

/-- `Font::from_bytes` from `loaders/core_text.rs`, parameterised by the
external Core Graphics parser.  The first component is the returned
`Result`, carrying on success the byte buffer the constructed font
retains (`FontData::Memory`); the second component is the caller's
buffer after the call.  The source clones the vector before unpacking
(`let mut new_font_data = (*font_data).clone()`) and every mutation in
`unpack_otc_font` targets that clone, so the embedding threads the
caller's buffer through unchanged — which is exactly the frame property
of claim C10. -/
def Font.from_bytes (cg_parse_ok : List Nat → Bool) (font_data : List Nat)
    (font_index : Nat) : RustResult (List Nat) × List Nat :=
  if font_is_collection font_data then
    match unpack_otc_font font_data font_index with
    | (.ok _, new_font_data) =>
      if cg_parse_ok new_font_data then (.ok new_font_data, font_data)
      else (.err .Parse, font_data)
    | (.err e, _) => (.err e, font_data)
    | (.panicked, _) => (.panicked, font_data)
  else
    if cg_parse_ok font_data then (.ok font_data, font_data)
    else (.err .Parse, font_data)

/-- Claim C10: `Font::from_bytes` never mutates the caller's byte
buffer: whether the buffer is a collection or not, and whether the call
succeeds, fails, or panics, the caller's bytes are identical before and
after the call (unpacking happens on a fresh clone). -/
theorem C10_from_bytes_caller_buffer_unchanged :
    ∀ (cg : List Nat → Bool) (data : List Nat) (font_index : Nat),
      (Font.from_bytes cg data font_index).2 = data := by
  intro cg data font_index
  unfold Font.from_bytes
  by_cases h : font_is_collection data
  · rw [if_pos h]
    rcases hu : unpack_otc_font data font_index with ⟨r, d2⟩
    rcases r with _ | e
    · by_cases hcg : cg d2 = true <;> simp [hcg]
    · rfl
    · rfl
  · rw [if_neg h]
    by_cases hcg : cg data = true <;> simp [hcg]

/-- `Style` from the descriptor data model (CSS font-style). -/
inductive Style where
  | Normal
  | Italic
  | Oblique
deriving DecidableEq

/-- `Properties` from the descriptor data model: CSS style, weight and
stretch (the `Weight`/`Stretch` newtypes are elided; `ℚ` stands in for
f32). -/
structure Properties where
  style : Style
  weight : ℚ
  stretch : ℚ
deriving DecidableEq

/-- `MatchFields` from `matching.rs`: the projection of a loaded face
used for scoring. -/
structure MatchFields where
  family_name : String
  properties : Properties
deriving DecidableEq

/-- Modelled from the spec: the style-axis fallback order of the CSS
Fonts matching procedure — exact match first; `Oblique` falls back to
`Italic` then `Normal`; `Italic` to `Oblique` then `Normal`; `Normal`
prefers upright and falls back to a slanted style only when no upright
face exists. -/
def styles_pref : Style → List Style
  | .Oblique => [.Oblique, .Italic, .Normal]
  | .Italic => [.Italic, .Oblique, .Normal]
  | .Normal => [.Normal, .Oblique, .Italic]

/-- Candidates paired with their positions in the family's enumeration
order, starting at index `n`. -/
def enumFromM : Nat → List MatchFields → List (Nat × MatchFields)
  | _, [] => []
  | n, x :: xs => (n, x) :: enumFromM (n + 1) xs

/-- Modelled from the spec: the style axis strictly partitions the
candidate set — the first style in the fallback order that any
candidate carries is selected, and only candidates with that style
survive. -/
def choose_style (req : Style) (cs : List (Nat × MatchFields)) :
    List (Nat × MatchFields) :=
  match (styles_pref req).find?
      (fun st => cs.any (fun c => decide (c.2.properties.style = st))) with
  | some st => cs.filter (fun c => decide (c.2.properties.style = st))
  | none => []

/-- Modelled from the spec: the stretch value the stretch axis settles
on — for a requested stretch at or below normal (1.0), the closest
narrower-or-equal candidate value, then the closest wider one; for a
requested stretch above normal, the closest wider-or-equal value, then
the closest narrower one. -/
def stretch_target (req : ℚ) (cs : List (Nat × MatchFields)) : Option ℚ :=
  if req ≤ 1 then
    match List.argmax (fun c => c.2.properties.stretch)
        (cs.filter (fun c => decide (c.2.properties.stretch ≤ req))) with
    | some c => some c.2.properties.stretch
    | none =>
      match List.argmin (fun c => c.2.properties.stretch)
          (cs.filter (fun c => decide (req < c.2.properties.stretch))) with
      | some c => some c.2.properties.stretch
      | none => none
  else
    match List.argmin (fun c => c.2.properties.stretch)
        (cs.filter (fun c => decide (req ≤ c.2.properties.stretch))) with
    | some c => some c.2.properties.stretch
    | none =>
      match List.argmax (fun c => c.2.properties.stretch)
          (cs.filter (fun c => decide (c.2.properties.stretch < req))) with
      | some c => some c.2.properties.stretch
      | none => none

/-- The stretch axis keeps exactly the candidates carrying the settled
stretch value. -/
def choose_stretch (req : ℚ) (cs : List (Nat × MatchFields)) :
    List (Nat × MatchFields) :=
  match stretch_target req cs with
  | some v => cs.filter (fun c => decide (c.2.properties.stretch = v))
  | none => []

/-- Modelled from the spec: the weight value the weight axis settles on
— nearest-value search with the documented asymmetric rule at the
400/500 boundary: for a request in `[400, 500]`, first the smallest
candidate weight in `[request, 500]`, then the closest below the
request, then the smallest above 500; for a request below 400,
descending below first, then ascending above; for a request above 500,
ascending above first, then descending below. -/
def weight_target (req : ℚ) (cs : List (Nat × MatchFields)) : Option ℚ :=
  if 400 ≤ req ∧ req ≤ 500 then
    match List.argmin (fun c => c.2.properties.weight)
        (cs.filter (fun c =>
          decide (req ≤ c.2.properties.weight ∧ c.2.properties.weight ≤ 500))) with
    | some c => some c.2.properties.weight
    | none =>
      match List.argmax (fun c => c.2.properties.weight)
          (cs.filter (fun c => decide (c.2.properties.weight < req))) with
      | some c => some c.2.properties.weight
      | none =>
        match List.argmin (fun c => c.2.properties.weight)
            (cs.filter (fun c => decide (500 < c.2.properties.weight))) with
        | some c => some c.2.properties.weight
        | none => none
  else if req < 400 then
    match List.argmax (fun c => c.2.properties.weight)
        (cs.filter (fun c => decide (c.2.properties.weight ≤ req))) with
    | some c => some c.2.properties.weight
    | none =>
      match List.argmin (fun c => c.2.properties.weight)
          (cs.filter (fun c => decide (req < c.2.properties.weight))) with
      | some c => some c.2.properties.weight
      | none => none
  else
    match List.argmin (fun c => c.2.properties.weight)
        (cs.filter (fun c => decide (req ≤ c.2.properties.weight))) with
    | some c => some c.2.properties.weight
    | none =>
      match List.argmax (fun c => c.2.properties.weight)
          (cs.filter (fun c => decide (c.2.properties.weight < req))) with
      | some c => some c.2.properties.weight
      | none => none

/-- The weight axis keeps exactly the candidates carrying the settled
weight value. -/
def choose_weight (req : ℚ) (cs : List (Nat × MatchFields)) :
    List (Nat × MatchFields) :=
  match weight_target req cs with
  | some v => cs.filter (fun c => decide (c.2.properties.weight = v))
  | none => []

/-- Modelled from the spec: `matching::find_best_match` (its defining
module is not among the embedded sources) — the CSS Fonts three-axis
matching procedure.  The style, stretch and weight axes successively
narrow the candidate set; the first survivor in family enumeration
order is returned, and the search fails only when the candidate set is
empty. -/
def find_best_match (candidates : List MatchFields) (query : Properties) :
    Option Nat :=
  (choose_weight query.weight
    (choose_stretch query.stretch
      (choose_style query.style (enumFromM 0 candidates)))).head?.map
    (fun c => c.1)

/-- Every member of the indexed candidate list carries an index within
the enumeration range. -/
theorem mem_enumFromM : ∀ (n : Nat) (l : List MatchFields) (p : Nat × MatchFields),
    p ∈ enumFromM n l → n ≤ p.1 ∧ p.1 < n + l.length := by
  intro n l
  induction l generalizing n with
  | nil => intro p hp; simp [enumFromM] at hp
  | cons x xs ih =>
    intro p hp
    simp only [enumFromM, List.mem_cons] at hp
    rcases hp with rfl | hp
    · simp
    · have := ih (n + 1) p hp
      simp only [List.length_cons]
      omega

/-- Enumeration preserves nonemptiness. -/
theorem enumFromM_ne_nil (n : Nat) {l : List MatchFields} (h : l ≠ []) :
    enumFromM n l ≠ [] := by
  cases l with
  | nil => exact absurd rfl h
  | cons x xs => simp [enumFromM]

/-- The style axis only discards candidates. -/
theorem choose_style_subset {req : Style} {cs : List (Nat × MatchFields)}
    {c : Nat × MatchFields} (hc : c ∈ choose_style req cs) : c ∈ cs := by
  unfold choose_style at hc
  split at hc
  · exact (List.mem_filter.mp hc).1
  · simp at hc

/-- The style axis keeps at least one candidate of a nonempty set:
every candidate's style occurs in the fallback order. -/
theorem choose_style_ne_nil {req : Style} {cs : List (Nat × MatchFields)}
    (h : cs ≠ []) : choose_style req cs ≠ [] := by
  rcases cs with _ | ⟨c, rest⟩
  · exact absurd rfl h
  · have hst : c.2.properties.style ∈ styles_pref req := by
      cases req <;> cases hcs : c.2.properties.style <;> simp [styles_pref]
    have hpred : ((c :: rest).any
        (fun x => decide (x.2.properties.style = c.2.properties.style))) = true := by
      simp
    unfold choose_style
    cases hfind : (styles_pref req).find?
        (fun st => (c :: rest).any (fun x => decide (x.2.properties.style = st))) with
    | none =>
      rw [List.find?_eq_none] at hfind
      exact absurd hpred (by simpa using hfind _ hst)
    | some st =>
      have hp := List.find?_some hfind
      simp only [List.any_eq_true] at hp
      obtain ⟨x, hx, hxs⟩ := hp
      exact List.ne_nil_of_mem (List.mem_filter.mpr ⟨hx, hxs⟩)

/-- The stretch axis only discards candidates. -/
theorem choose_stretch_subset {req : ℚ} {cs : List (Nat × MatchFields)}
    {c : Nat × MatchFields} (hc : c ∈ choose_stretch req cs) : c ∈ cs := by
  unfold choose_stretch at hc
  split at hc
  · exact (List.mem_filter.mp hc).1
  · simp at hc

/-- On a nonempty candidate set the stretch axis settles on a value
attained by some candidate. -/
theorem stretch_target_attained {req : ℚ} {cs : List (Nat × MatchFields)}
    (h : cs ≠ []) :
    ∃ v, stretch_target req cs = some v ∧
      ∃ c ∈ cs, c.2.properties.stretch = v := by
  obtain ⟨c, hc⟩ : ∃ c, c ∈ cs := by
    rcases cs with _ | ⟨c, rest⟩
    · exact absurd rfl h
    · exact ⟨c, List.mem_cons_self c rest⟩
  unfold stretch_target
  by_cases hreq : req ≤ 1
  · rw [if_pos hreq]
    cases hm : List.argmax (fun c => c.2.properties.stretch)
        (cs.filter (fun c => decide (c.2.properties.stretch ≤ req))) with
    | some m =>
      have hmem := List.argmax_mem hm
      exact ⟨m.2.properties.stretch, rfl, m, (List.mem_filter.mp hmem).1, rfl⟩
    | none =>
      have hlow := List.argmax_eq_none.mp hm
      have hcnot : ¬ c.2.properties.stretch ≤ req := by
        intro hle
        have hmem : c ∈ cs.filter (fun c => decide (c.2.properties.stretch ≤ req)) :=
          List.mem_filter.mpr ⟨hc, by simpa using hle⟩
        rw [hlow] at hmem
        exact absurd hmem (List.not_mem_nil c)
      have hchigh : c ∈ cs.filter (fun c => decide (req < c.2.properties.stretch)) :=
        List.mem_filter.mpr ⟨hc, by simpa using lt_of_not_le hcnot⟩
      cases hm2 : List.argmin (fun c => c.2.properties.stretch)
          (cs.filter (fun c => decide (req < c.2.properties.stretch))) with
      | none =>
        rw [List.argmin_eq_none.mp hm2] at hchigh
        exact absurd hchigh (List.not_mem_nil c)
      | some m2 =>
        have hmem2 := List.argmin_mem hm2
        exact ⟨m2.2.properties.stretch, rfl, m2, (List.mem_filter.mp hmem2).1, rfl⟩
  · rw [if_neg hreq]
    cases hm : List.argmin (fun c => c.2.properties.stretch)
        (cs.filter (fun c => decide (req ≤ c.2.properties.stretch))) with
    | some m =>
      have hmem := List.argmin_mem hm
      exact ⟨m.2.properties.stretch, rfl, m, (List.mem_filter.mp hmem).1, rfl⟩
    | none =>
      have hhigh := List.argmin_eq_none.mp hm
      have hcnot : ¬ req ≤ c.2.properties.stretch := by
        intro hle
        have hmem : c ∈ cs.filter (fun c => decide (req ≤ c.2.properties.stretch)) :=
          List.mem_filter.mpr ⟨hc, by simpa using hle⟩
        rw [hhigh] at hmem
        exact absurd hmem (List.not_mem_nil c)
      have hclow : c ∈ cs.filter (fun c => decide (c.2.properties.stretch < req)) :=
        List.mem_filter.mpr ⟨hc, by simpa using lt_of_not_le hcnot⟩
      cases hm2 : List.argmax (fun c => c.2.properties.stretch)
          (cs.filter (fun c => decide (c.2.properties.stretch < req))) with
      | none =>
        rw [List.argmax_eq_none.mp hm2] at hclow
        exact absurd hclow (List.not_mem_nil c)
      | some m2 =>
        have hmem2 := List.argmax_mem hm2
        exact ⟨m2.2.properties.stretch, rfl, m2, (List.mem_filter.mp hmem2).1, rfl⟩

/-- The stretch axis keeps at least one candidate of a nonempty set. -/
theorem choose_stretch_ne_nil {req : ℚ} {cs : List (Nat × MatchFields)}
    (h : cs ≠ []) : choose_stretch req cs ≠ [] := by
  obtain ⟨v, hv, c, hc, hcv⟩ := @stretch_target_attained req _ h
  unfold choose_stretch
  rw [hv]
  exact List.ne_nil_of_mem (List.mem_filter.mpr ⟨hc, by simpa using hcv⟩)

/-- The weight axis only discards candidates. -/
theorem choose_weight_subset {req : ℚ} {cs : List (Nat × MatchFields)}
    {c : Nat × MatchFields} (hc : c ∈ choose_weight req cs) : c ∈ cs := by
  unfold choose_weight at hc
  split at hc
  · exact (List.mem_filter.mp hc).1
  · simp at hc

/-- On a nonempty candidate set the weight axis settles on a value
attained by some candidate: the three buckets of each branch cover all
candidate weights. -/
theorem weight_target_attained {req : ℚ} {cs : List (Nat × MatchFields)}
    (h : cs ≠ []) :
    ∃ v, weight_target req cs = some v ∧
      ∃ c ∈ cs, c.2.properties.weight = v := by
  obtain ⟨c, hc⟩ : ∃ c, c ∈ cs := by
    rcases cs with _ | ⟨c, rest⟩
    · exact absurd rfl h
    · exact ⟨c, List.mem_cons_self c rest⟩
  unfold weight_target
  by_cases hreq1 : 400 ≤ req ∧ req ≤ 500
  · rw [if_pos hreq1]
    cases hm : List.argmin (fun c => c.2.properties.weight)
        (cs.filter (fun c =>
          decide (req ≤ c.2.properties.weight ∧ c.2.properties.weight ≤ 500))) with
    | some m =>
      have hmem := List.argmin_mem hm
      exact ⟨m.2.properties.weight, rfl, m, (List.mem_filter.mp hmem).1, rfl⟩
    | none =>
      have hA := List.argmin_eq_none.mp hm
      cases hm2 : List.argmax (fun c => c.2.properties.weight)
          (cs.filter (fun c => decide (c.2.properties.weight < req))) with
      | some m2 =>
        have hmem2 := List.argmax_mem hm2
        exact ⟨m2.2.properties.weight, rfl, m2, (List.mem_filter.mp hmem2).1, rfl⟩
      | none =>
        have hB := List.argmax_eq_none.mp hm2
        have hcB : ¬ c.2.properties.weight < req := by
          intro hlt
          have hmem : c ∈ cs.filter (fun c => decide (c.2.properties.weight < req)) :=
            List.mem_filter.mpr ⟨hc, by simpa using hlt⟩
          rw [hB] at hmem
          exact absurd hmem (List.not_mem_nil c)
        have hcA : ¬ (req ≤ c.2.properties.weight ∧ c.2.properties.weight ≤ 500) := by
          intro hand
          have hmem : c ∈ cs.filter (fun c =>
              decide (req ≤ c.2.properties.weight ∧ c.2.properties.weight ≤ 500)) :=
            List.mem_filter.mpr ⟨hc, by simpa using hand⟩
          rw [hA] at hmem
          exact absurd hmem (List.not_mem_nil c)
        have hcC : c ∈ cs.filter (fun c => decide (500 < c.2.properties.weight)) := by
          refine List.mem_filter.mpr ⟨hc, ?_⟩
          have h1 : req ≤ c.2.properties.weight := le_of_not_lt hcB
          have h2 : ¬ c.2.properties.weight ≤ 500 := fun hle => hcA ⟨h1, hle⟩
          simpa using lt_of_not_le h2
        cases hm3 : List.argmin (fun c => c.2.properties.weight)
            (cs.filter (fun c => decide (500 < c.2.properties.weight))) with
        | none =>
          rw [List.argmin_eq_none.mp hm3] at hcC
          exact absurd hcC (List.not_mem_nil c)
        | some m3 =>
          have hmem3 := List.argmin_mem hm3
          exact ⟨m3.2.properties.weight, rfl, m3, (List.mem_filter.mp hmem3).1, rfl⟩
  · rw [if_neg hreq1]
    by_cases hreq2 : req < 400
    · rw [if_pos hreq2]
      cases hm : List.argmax (fun c => c.2.properties.weight)
          (cs.filter (fun c => decide (c.2.properties.weight ≤ req))) with
      | some m =>
        have hmem := List.argmax_mem hm
        exact ⟨m.2.properties.weight, rfl, m, (List.mem_filter.mp hmem).1, rfl⟩
      | none =>
        have hlow := List.argmax_eq_none.mp hm
        have hcnot : ¬ c.2.properties.weight ≤ req := by
          intro hle
          have hmem : c ∈ cs.filter (fun c => decide (c.2.properties.weight ≤ req)) :=
            List.mem_filter.mpr ⟨hc, by simpa using hle⟩
          rw [hlow] at hmem
          exact absurd hmem (List.not_mem_nil c)
        have hchigh : c ∈ cs.filter (fun c => decide (req < c.2.properties.weight)) :=
          List.mem_filter.mpr ⟨hc, by simpa using lt_of_not_le hcnot⟩
        cases hm2 : List.argmin (fun c => c.2.properties.weight)
            (cs.filter (fun c => decide (req < c.2.properties.weight))) with
        | none =>
          rw [List.argmin_eq_none.mp hm2] at hchigh
          exact absurd hchigh (List.not_mem_nil c)
        | some m2 =>
          have hmem2 := List.argmin_mem hm2
          exact ⟨m2.2.properties.weight, rfl, m2, (List.mem_filter.mp hmem2).1, rfl⟩
    · rw [if_neg hreq2]
      cases hm : List.argmin (fun c => c.2.properties.weight)
          (cs.filter (fun c => decide (req ≤ c.2.properties.weight))) with
      | some m =>
        have hmem := List.argmin_mem hm
        exact ⟨m.2.properties.weight, rfl, m, (List.mem_filter.mp hmem).1, rfl⟩
      | none =>
        have hhigh := List.argmin_eq_none.mp hm
        have hcnot : ¬ req ≤ c.2.properties.weight := by
          intro hle
          have hmem : c ∈ cs.filter (fun c => decide (req ≤ c.2.properties.weight)) :=
            List.mem_filter.mpr ⟨hc, by simpa using hle⟩
          rw [hhigh] at hmem
          exact absurd hmem (List.not_mem_nil c)
        have hclow : c ∈ cs.filter (fun c => decide (c.2.properties.weight < req)) :=
          List.mem_filter.mpr ⟨hc, by simpa using lt_of_not_le hcnot⟩
        cases hm2 : List.argmax (fun c => c.2.properties.weight)
            (cs.filter (fun c => decide (c.2.properties.weight < req))) with
        | none =>
          rw [List.argmax_eq_none.mp hm2] at hclow
          exact absurd hclow (List.not_mem_nil c)
        | some m2 =>
          have hmem2 := List.argmax_mem hm2
          exact ⟨m2.2.properties.weight, rfl, m2, (List.mem_filter.mp hmem2).1, rfl⟩

/-- The weight axis keeps at least one candidate of a nonempty set. -/
theorem choose_weight_ne_nil {req : ℚ} {cs : List (Nat × MatchFields)}
    (h : cs ≠ []) : choose_weight req cs ≠ [] := by
  obtain ⟨v, hv, c, hc, hcv⟩ := @weight_target_attained req _ h
  unfold choose_weight
  rw [hv]
  exact List.ne_nil_of_mem (List.mem_filter.mpr ⟨hc, by simpa using hcv⟩)

/-- On a nonempty candidate list `find_best_match` always succeeds, with
an in-range index: within a resolved family, any font is eligible, so
scoring never fails merely because no candidate is a perfect fit. -/
theorem find_best_match_total (candidates : List MatchFields) (query : Properties)
    (h : candidates ≠ []) :
    ∃ i, find_best_match candidates query = some i ∧ i < candidates.length := by
  have h0 : enumFromM 0 candidates ≠ [] := enumFromM_ne_nil 0 h
  have h1 : choose_style query.style (enumFromM 0 candidates) ≠ [] :=
    choose_style_ne_nil h0
  have h2 : choose_stretch query.stretch
      (choose_style query.style (enumFromM 0 candidates)) ≠ [] :=
    choose_stretch_ne_nil h1
  have h3 : choose_weight query.weight (choose_stretch query.stretch
      (choose_style query.style (enumFromM 0 candidates))) ≠ [] :=
    choose_weight_ne_nil h2
  rcases hfin : choose_weight query.weight (choose_stretch query.stretch
      (choose_style query.style (enumFromM 0 candidates))) with _ | ⟨c, rest⟩
  · exact absurd hfin h3
  · have hcmem : c ∈ choose_weight query.weight (choose_stretch query.stretch
        (choose_style query.style (enumFromM 0 candidates))) := by
      rw [hfin]
      exact List.mem_cons_self c rest
    have hcenum : c ∈ enumFromM 0 candidates :=
      choose_style_subset (choose_stretch_subset (choose_weight_subset hcmem))
    have hbound := mem_enumFromM 0 candidates c hcenum
    refine ⟨c.1, ?_, by omega⟩
    unfold find_best_match
    rw [hfin]
    rfl

/-- `Handle` from `handle.rs`: an opaque font identifier. -/
structure Handle where
  id : Nat
deriving DecidableEq

/-- A loaded face, projected to what `select_match_fields_for_family`
reads from it: `family_name()` and `properties()`. -/
structure FontM where
  family_name : String
  properties : Properties

/-- `SelectionError` from the repository's error taxonomy: the `NotFound`
variant is the one produced by the embedded source; remaining variants
are collapsed into `CannotAccessSource`. -/
inductive SelectionError where
  | NotFound
  | CannotAccessSource
deriving DecidableEq

/-- Result of a Rust function returning `Result<α, SelectionError>`,
with an extra constructor recording an irrecoverable abort. -/
inductive SelResult (α : Type) where
  | ok (val : α)
  | err (e : SelectionError)
  | panicked
deriving DecidableEq

/-- `FamilySpec` from the descriptor data model. -/
inductive FamilySpec where
  | Name (name : String)
  | Serif
  | SansSerif
  | Monospace
  | Cursive
  | Fantasy

/-- `Spec` from the descriptor data model: the ordered family fallback
list and the requested style properties. -/
structure SpecM where
  families : List FamilySpec
  properties : Properties

/-- Default family names for the generic classes, from `source.rs`. -/
def DEFAULT_FONT_FAMILY_SERIF : String := "Times New Roman"

def DEFAULT_FONT_FAMILY_SANS_SERIF : String := "Arial"

def DEFAULT_FONT_FAMILY_MONOSPACE : String := "Courier New"

def DEFAULT_FONT_FAMILY_CURSIVE : String := "Comic Sans MS"

def DEFAULT_FONT_FAMILY_FANTASY : String := "Papyrus"

/-- The two primitives a `Source` implementation supplies to the default
trait methods of `source.rs`: family lookup by name
(`select_family_by_name`, backend-specific), and font loading
(`Font::from_handle`, from `handle.rs`, not among the embedded
sources).  A `FamilyHandle` is its list of font handles. -/
structure SourceModel where
  select_family_by_name : String → Except SelectionError (List Handle)
  load : Handle → Except FontLoadingError FontM

/-- `Source::select_family_by_spec` from `source.rs`: generic classes
resolve through the fixed default-family-name table. -/
def select_family_by_spec (src : SourceModel) (family : FamilySpec) :
    Except SelectionError (List Handle) :=
  match family with
  | .Name name => src.select_family_by_name name
  | .Serif => src.select_family_by_name DEFAULT_FONT_FAMILY_SERIF
  | .SansSerif => src.select_family_by_name DEFAULT_FONT_FAMILY_SANS_SERIF
  | .Monospace => src.select_family_by_name DEFAULT_FONT_FAMILY_MONOSPACE
  | .Cursive => src.select_family_by_name DEFAULT_FONT_FAMILY_CURSIVE
  | .Fantasy => src.select_family_by_name DEFAULT_FONT_FAMILY_FANTASY

/-- `Source::select_match_fields_for_family` from `source.rs`: projects
every handle of the family to its match fields.  The source calls
`Font::from_handle(font_handle).unwrap()`, so a handle that fails to
load aborts the process instead of surfacing the loading error — the
embedding returns `.panicked` there. -/
def select_match_fields_for_family
    (load : Handle → Except FontLoadingError FontM) :
    List Handle → SelResult (List MatchFields)
  | [] => .ok []
  | h :: rest =>
    match load h with
    | .error _ => .panicked
    | .ok font =>
      match select_match_fields_for_family load rest with
      | .ok fields =>
        .ok ({ family_name := font.family_name,
               properties := font.properties } :: fields)
      | .err e => .err e
      | .panicked => .panicked

/-- The family fallback loop of `Source::select_best_match` from
`source.rs`: a family whose resolution fails is skipped; a resolved
family's candidates are scored, and only a failed scoring falls through
to the next family; indexing `family_handle.fonts[index]` panics when
out of bounds. -/
def select_best_match_go (src : SourceModel) (query : Properties) :
    List FamilySpec → SelResult Handle
  | [] => .err .NotFound
  | family :: rest =>
    match select_family_by_spec src family with
    | .error _ => select_best_match_go src query rest
    | .ok family_handle =>
      match select_match_fields_for_family src.load family_handle with
      | .panicked => .panicked
      | .err e => .err e
      | .ok candidates =>
        match find_best_match candidates query with
        | none => select_best_match_go src query rest
        | some index =>
          if hidx : index < family_handle.length then
            .ok (family_handle.get ⟨index, hidx⟩)
          else .panicked

/-- `Source::select_best_match` from `source.rs`. -/
def select_best_match (src : SourceModel) (spec : SpecM) : SelResult Handle :=
  select_best_match_go src spec.properties spec.families

/-- A family specification yields a candidate when it resolves to a
family with at least one font handle. -/
def yields_candidate (src : SourceModel) (family : FamilySpec) : Prop :=
  ∃ fh, select_family_by_spec src family = .ok fh ∧ fh ≠ []

/-- Every handle of every family resolvable from the list loads
successfully (the regime in which `select_match_fields_for_family`'s
`unwrap` cannot abort). -/
def loads_ok (src : SourceModel) (families : List FamilySpec) : Prop :=
  ∀ family ∈ families, ∀ fh, select_family_by_spec src family = .ok fh →
    ∀ h ∈ fh, ∃ f, src.load h = .ok f

/-- When every handle of the family loads, the match-fields projection
succeeds, producing one entry per handle. -/
theorem select_match_fields_ok (load : Handle → Except FontLoadingError FontM) :
    ∀ (hs : List Handle), (∀ x ∈ hs, ∃ f, load x = .ok f) →
    ∃ fields, select_match_fields_for_family load hs = .ok fields ∧
      fields.length = hs.length := by
  intro hs
  induction hs with
  | nil => exact fun _ => ⟨[], rfl, rfl⟩
  | cons h rest ih =>
    intro hall
    obtain ⟨f, hf⟩ := hall h (List.mem_cons_self _ _)
    obtain ⟨fields, hfields, hlen⟩ :=
      ih (fun x hx => hall x (List.mem_cons_of_mem _ hx))
    refine ⟨{ family_name := f.family_name, properties := f.properties } :: fields,
      ?_, ?_⟩
    · simp only [select_match_fields_for_family, hf, hfields]
    · simp [hlen]

/-- The style axis of an empty candidate set is empty. -/
theorem choose_style_nil (req : Style) : choose_style req [] = [] := by
  cases req <;> rfl

/-- The stretch axis of an empty candidate set is empty. -/
theorem choose_stretch_nil (req : ℚ) : choose_stretch req [] = [] := by
  unfold choose_stretch stretch_target
  split_ifs <;> simp

/-- The weight axis of an empty candidate set is empty. -/
theorem choose_weight_nil (req : ℚ) : choose_weight req [] = [] := by
  unfold choose_weight weight_target
  split_ifs <;> simp

/-- Scoring an empty candidate list fails. -/
theorem find_best_match_nil (query : Properties) :
    find_best_match [] query = none := by
  unfold find_best_match
  rw [show enumFromM 0 [] = [] from rfl, choose_style_nil, choose_stretch_nil,
    choose_weight_nil]
  rfl

/-- A family that yields no candidate — resolution fails, or the
resolved family is empty — is skipped by the fallback loop. -/
theorem go_skip (src : SourceModel) (query : Properties) (family : FamilySpec)
    (rest : List FamilySpec) (hny : ¬ yields_candidate src family) :
    select_best_match_go src query (family :: rest) =
      select_best_match_go src query rest := by
  cases hres : select_family_by_spec src family with
  | error e => simp [select_best_match_go, hres]
  | ok fh =>
    have hnil : fh = [] := by
      by_contra hne
      exact hny ⟨fh, hres, hne⟩
    subst hnil
    simp [select_best_match_go, hres, select_match_fields_for_family,
      find_best_match_nil]

/-- A family that yields a candidate pool, all of whose handles load, is
used: the loop returns a handle from that pool, regardless of the
remaining families. -/
theorem go_hit (src : SourceModel) (query : Properties) (family : FamilySpec)
    (rest : List FamilySpec) (fh : List Handle)
    (hres : select_family_by_spec src family = .ok fh) (hne : fh ≠ [])
    (hload : ∀ h ∈ fh, ∃ f, src.load h = .ok f) :
    ∃ h, h ∈ fh ∧ select_best_match_go src query (family :: rest) = .ok h := by
  obtain ⟨fields, hfields, hlen⟩ := select_match_fields_ok src.load fh hload
  have hfne : fields ≠ [] := by
    intro hnil
    rw [hnil] at hlen
    exact hne (List.eq_nil_of_length_eq_zero hlen.symm)
  obtain ⟨i, hfind, hi⟩ := find_best_match_total fields query hfne
  rw [hlen] at hi
  refine ⟨fh.get ⟨i, hi⟩, List.get_mem fh i hi, ?_⟩
  simp only [select_best_match_go, hres, hfields, hfind]
  rw [dif_pos hi]

/-- The loop reports `NotFound` exactly when no family in the list
yields a candidate. -/
theorem go_notfound_iff (src : SourceModel) (query : Properties) :
    ∀ (fams : List FamilySpec), loads_ok src fams →
    (select_best_match_go src query fams = .err .NotFound ↔
      ∀ family ∈ fams, ¬ yields_candidate src family) := by
  intro fams
  induction fams with
  | nil => intro _; simp [select_best_match_go]
  | cons family rest ih =>
    intro hl
    have hlrest : loads_ok src rest :=
      fun f hf => hl f (List.mem_cons_of_mem _ hf)
    by_cases hy : yields_candidate src family
    · obtain ⟨fh, hres, hne⟩ := hy
      obtain ⟨h, hmem, heq⟩ := go_hit src query family rest fh hres hne
        (hl family (List.mem_cons_self _ _) fh hres)
      rw [heq]
      constructor
      · intro hcontra
        exact absurd hcontra (by simp)
      · intro hall
        exact absurd ⟨fh, hres, hne⟩ (hall family (List.mem_cons_self _ _))
    · rw [go_skip src query family rest hy, ih hlrest]
      constructor
      · intro hall f hf
        rcases List.mem_cons.mp hf with rfl | hf'
        · exact hy
        · exact hall f hf'
      · intro hall f hf
        exact hall f (List.mem_cons_of_mem _ hf)

/-- After skipping any prefix of families yielding no candidate, the
first family that yields a pool determines the result. -/
theorem go_first_hit (src : SourceModel) (query : Properties) :
    ∀ (pre : List FamilySpec) (family : FamilySpec) (post : List FamilySpec)
      (fh : List Handle),
    (∀ f ∈ pre, ¬ yields_candidate src f) →
    select_family_by_spec src family = .ok fh → fh ≠ [] →
    (∀ h ∈ fh, ∃ f, src.load h = .ok f) →
    ∃ h, h ∈ fh ∧
      select_best_match_go src query (pre ++ family :: post) = .ok h := by
  intro pre
  induction pre with
  | nil =>
    intro family post fh hpre hres hne hload
    simpa using go_hit src query family post fh hres hne hload
  | cons p pre' ih =>
    intro family post fh hpre hres hne hload
    rw [List.cons_append,
      go_skip src query p (pre' ++ family :: post) (hpre p (List.mem_cons_self _ _))]
    exact ih family post fh (fun f hf => hpre f (List.mem_cons_of_mem _ hf))
      hres hne hload

/-- Claim C1: `select_best_match` tries `spec.families` in order; the
first family that yields a candidate pool (resolves successfully to a
nonempty family) is used, and the returned handle comes from that pool
— matching within a resolved family never falls through merely for
want of a perfect fit, since `find_best_match` succeeds on every
nonempty pool (`find_best_match_total`); and the call returns
`NotFound` exactly when no family in the list yields a candidate.
Stated in the regime where every resolvable handle loads, since the
source's `unwrap` otherwise aborts (claim C7). -/
theorem C1_select_best_match_fallback (src : SourceModel) (spec : SpecM)
    (hl : loads_ok src spec.families) :
    (∀ pre family post fh, spec.families = pre ++ family :: post →
      (∀ f ∈ pre, ¬ yields_candidate src f) →
      select_family_by_spec src family = .ok fh → fh ≠ [] →
      ∃ h, h ∈ fh ∧ select_best_match src spec = .ok h) ∧
    (select_best_match src spec = .err .NotFound ↔
      ∀ family ∈ spec.families, ¬ yields_candidate src family) := by
  constructor
  · intro pre family post fh hsplit hpre hres hne
    have hload : ∀ h ∈ fh, ∃ f, src.load h = .ok f := by
      refine hl family ?_ fh hres
      rw [hsplit]
      exact List.mem_append_right _ (List.mem_cons_self _ _)
    unfold select_best_match
    rw [hsplit]
    exact go_first_hit src spec.properties pre family post fh hpre hres hne hload
  · unfold select_best_match
    exact go_notfound_iff src spec.properties spec.families hl

/-- A concrete source for the C1 witness: only the sans-serif default
family "Arial" exists, holding two fonts; every handle loads. -/
def srcW : SourceModel where
  select_family_by_name := fun name =>
    if name = DEFAULT_FONT_FAMILY_SANS_SERIF then .ok [⟨7⟩, ⟨8⟩]
    else .error .NotFound
  load := fun h =>
    .ok (if h.id = 7 then ⟨"Arial", ⟨.Normal, 400, 1⟩⟩
         else ⟨"Arial", ⟨.Italic, 700, 1⟩⟩)

/-- A concrete match specification for the C1 witness: a nonexistent
family first, the sans-serif generic as fallback. -/
def specW : SpecM :=
  ⟨[.Name "Nonexistent", .SansSerif], ⟨.Normal, 400, 1⟩⟩

/-- Witness for C1: with the first family unresolvable, the fallback
generic family is used and the result is one of its handles. -/
theorem C1_select_best_match_fallback_witness :
    ∃ h, h ∈ [Handle.mk 7, Handle.mk 8] ∧
      select_best_match srcW specW = .ok h := by
  have hl : loads_ok srcW specW.families :=
    fun family _ fh _ h _ => ⟨_, rfl⟩
  refine (C1_select_best_match_fallback srcW specW hl).1
    [.Name "Nonexistent"] .SansSerif [] [⟨7⟩, ⟨8⟩] rfl ?_ ?_ (by simp)
  · intro f hf
    simp only [List.mem_singleton] at hf
    subst hf
    rintro ⟨fh, hres, -⟩
    simp [select_family_by_spec, srcW, DEFAULT_FONT_FAMILY_SANS_SERIF] at hres
  · simp [select_family_by_spec, srcW, DEFAULT_FONT_FAMILY_SANS_SERIF]

/-- A concrete source for the C7 failing input: the family resolves to
one handle, and loading that handle fails (for instance a memory handle
whose bytes do not parse). -/
def srcBad : SourceModel where
  select_family_by_name := fun _ => .ok [⟨0⟩]
  load := fun _ => .error .Parse

/-- Claim C7 (code bug): when a font handle in a resolved family fails
to load, `select_match_fields_for_family` — and with it
`select_best_match` — aborts (the source unwraps the load result)
instead of returning the typed error the spec's propagation policy
requires. -/
theorem C7_selection_panics_on_load_failure :
    select_match_fields_for_family srcBad.load [⟨0⟩] = .panicked ∧
    select_best_match srcBad ⟨[.Name "AnyFamily"], ⟨.Normal, 400, 1⟩⟩ =
      .panicked :=
  ⟨rfl, rfl⟩

end FontKit
